import Mathlib

/-!
Shallow embedding of the N-body simulation (`n_body_simulation.py`).

The force kernel `calc_acc` and the kick-drift-kick main loop are translated
into Lean over exact real arithmetic: an `N × 3` NumPy matrix becomes a
function `Fin n → Fin 3 → ℝ`, the `N × 1` mass column becomes `Fin n → ℝ`,
and the elementwise masked power `inv_r3[inv_r3>0] = inv_r3[inv_r3>0]**(-1.5)`
becomes a pointwise conditional real power.
-/

namespace NBody

/-- Entry `(i, j)` of the pairwise separation matrices `dx`, `dy`, `dz`
(component `k`): the code computes `x.T - x`, whose `(i, j)` entry is
`pos[j,k] - pos[i,k]`. -/
noncomputable def sep {n : ℕ} (pos : Fin n → Fin 3 → ℝ) (i j : Fin n) (k : Fin 3) : ℝ :=
  pos j k - pos i k

/-- Entry `(i, j)` of the matrix `dx**2 + dy**2 + dz**2 + softening**2`
built on line 28 of the source. -/
noncomputable def sqDist {n : ℕ} (pos : Fin n → Fin 3 → ℝ) (softening : ℝ) (i j : Fin n) : ℝ :=
  sep pos i j 0 ^ 2 + sep pos i j 1 ^ 2 + sep pos i j 2 ^ 2 + softening ^ 2

/-- Entry `(i, j)` of the `inv_r3` matrix after the masked in-place update
`inv_r3[inv_r3>0] = inv_r3[inv_r3>0]**(-1.5)`: entries that are `> 0` are
raised to the power `-3/2`, the remaining entries keep their value. -/
noncomputable def inv_r3 {n : ℕ} (pos : Fin n → Fin 3 → ℝ) (softening : ℝ) (i j : Fin n) : ℝ :=
  if 0 < sqDist pos softening i j then sqDist pos softening i j ^ ((-3 : ℝ) / 2)
  else sqDist pos softening i j

/-- The spec-side inverse-cube factor, written following the specification:
`(|r_ij|² + ε²)^(−3/2)` when `|r_ij|² + ε² > 0`, else `0`. -/
noncomputable def inv_r3_spec {n : ℕ} (pos : Fin n → Fin 3 → ℝ) (softening : ℝ)
    (i j : Fin n) : ℝ :=
  if 0 < sqDist pos softening i j then sqDist pos softening i j ^ ((-3 : ℝ) / 2)
  else 0

/-- The force kernel: row `i`, component `k` of the acceleration matrix
`a = hstack(G * (dx * inv_r3) @ mass, ...)`, i.e.
`G * Σ_j dx[i,j] * inv_r3[i,j] * mass[j]`. -/
noncomputable def calc_acc {n : ℕ} (pos : Fin n → Fin 3 → ℝ) (mass : Fin n → ℝ)
    (G softening : ℝ) : Fin n → Fin 3 → ℝ :=
  fun i k => G * ∑ j, sep pos i j k * inv_r3 pos softening i j * mass j

lemma sqDist_nonneg {n : ℕ} (pos : Fin n → Fin 3 → ℝ) (softening : ℝ) (i j : Fin n) :
    0 ≤ sqDist pos softening i j := by
  unfold sqDist
  positivity

/-- Because every entry of `dx**2 + dy**2 + dz**2 + softening**2` is a sum of
squares, the entries not selected by the mask are exactly the zero entries, so
the code's `inv_r3` coincides with the specification's. -/
lemma inv_r3_eq_spec {n : ℕ} (pos : Fin n → Fin 3 → ℝ) (softening : ℝ) (i j : Fin n) :
    inv_r3 pos softening i j = inv_r3_spec pos softening i j := by
  unfold inv_r3 inv_r3_spec
  by_cases h : 0 < sqDist pos softening i j
  · simp [h]
  · have h0 : sqDist pos softening i j = 0 :=
      le_antisymm (not_lt.mp h) (sqDist_nonneg pos softening i j)
    simp [h, h0]

/-- Claim C1: for every body set, row `i` of `calc_acc` equals
`G · Σ_{j ≠ i} (r_ij · inv_r3(i,j)) · mass_j`, where `r_ij = pos_j − pos_i` and
`inv_r3 = (|r_ij|² + ε²)^(−3/2)` when positive and `0` otherwise, the row
ordering matching the input body ordering. -/
theorem calc_acc_formula {n : ℕ} (pos : Fin n → Fin 3 → ℝ) (mass : Fin n → ℝ)
    (G softening : ℝ) (i : Fin n) (k : Fin 3) :
    calc_acc pos mass G softening i k =
      G * ∑ j ∈ Finset.univ.erase i, sep pos i j k * inv_r3_spec pos softening i j * mass j := by
  unfold calc_acc
  congr 1
  have hself : sep pos i i k * inv_r3 pos softening i i * mass i = 0 := by
    simp [sep]
  have hsplit : ∑ j ∈ Finset.univ.erase i, sep pos i j k * inv_r3 pos softening i j * mass j
      = ∑ j, sep pos i j k * inv_r3 pos softening i j * mass j :=
    Finset.sum_erase Finset.univ hself
  rw [← hsplit]
  exact Finset.sum_congr rfl fun j _ => by rw [inv_r3_eq_spec]

/-- The mutable simulation state of the main loop: positions, velocities, the
acceleration buffer, and the current time. -/
structure State (n : ℕ) where
  pos : Fin n → Fin 3 → ℝ
  vel : Fin n → Fin 3 → ℝ
  acc : Fin n → Fin 3 → ℝ
  t : ℝ

/-- One iteration of the main loop (source lines 80-94): half-kick with the
stored accelerations, drift, recompute accelerations at the new positions,
second half-kick, advance time. -/
noncomputable def step {n : ℕ} (mass : Fin n → ℝ) (G softening dt : ℝ) (s : State n) :
    State n :=
  let vel1 : Fin n → Fin 3 → ℝ := fun i k => s.vel i k + s.acc i k * (dt / 2)
  let pos1 : Fin n → Fin 3 → ℝ := fun i k => s.pos i k + vel1 i k * dt
  let acc1 : Fin n → Fin 3 → ℝ := calc_acc pos1 mass G softening
  let vel2 : Fin n → Fin 3 → ℝ := fun i k => vel1 i k + acc1 i k * (dt / 2)
  ⟨pos1, vel2, acc1, s.t + dt⟩

/-- The state after `m` iterations of the main loop. -/
noncomputable def stepIter {n : ℕ} (mass : Fin n → ℝ) (G softening dt : ℝ)
    (s0 : State n) : ℕ → State n
  | 0 => s0
  | m + 1 => step mass G softening dt (stepIter mass G softening dt s0 m)

/-- The trajectory history `pos_save`: slot `0` holds the initial positions
(line 70) and slot `i + 1` is written at the end of iteration `i` (line 97), so
slot `m` holds the positions after `m` iterations. -/
noncomputable def pos_save {n : ℕ} (mass : Fin n → ℝ) (G softening dt : ℝ)
    (s0 : State n) (steps : ℕ) : List (Fin n → Fin 3 → ℝ) :=
  (List.range (steps + 1)).map fun m => (stepIter mass G softening dt s0 m).pos

/-- The sample times `t_all = np.arange(Nt+1)*dt` (line 72). -/
noncomputable def t_all (dt : ℝ) (steps : ℕ) : List ℝ :=
  (List.range (steps + 1)).map fun (i : ℕ) => (i : ℝ) * dt

/-- The step count `Nt = int(np.ceil(tEnd/dt))` (line 66). -/
noncomputable def Nt (tEnd dt : ℝ) : ℤ := ⌈tEnd / dt⌉

/-- The state at loop entry: the supplied positions and velocities together
with the accelerations computed once before the loop (line 63), at time `0`. -/
noncomputable def initState {n : ℕ} (pos0 vel0 : Fin n → Fin 3 → ℝ) (mass : Fin n → ℝ)
    (G softening : ℝ) : State n :=
  ⟨pos0, vel0, calc_acc pos0 mass G softening, 0⟩

/-- The run: all `steps` iterations of the loop, returning the trajectory
history together with the parallel sample times. -/
noncomputable def run {n : ℕ} (mass : Fin n → ℝ) (G softening dt : ℝ) (s0 : State n)
    (steps : ℕ) : List (Fin n → Fin 3 → ℝ) × List ℝ :=
  (pos_save mass G softening dt s0 steps, t_all dt steps)

/-- Claim C2: one loop iteration is exactly the ordered sequence
half-kick (with the previous accelerations), drift, force recomputation at the
new positions, second half-kick, time advance — and the history gains exactly
the current positions; no other state update occurs. -/
theorem step_transition {n : ℕ} (mass : Fin n → ℝ) (G softening dt : ℝ)
    (s s0 : State n) (m : ℕ) :
    (step mass G softening dt s).pos
        = (fun i k => s.pos i k + (s.vel i k + s.acc i k * (dt / 2)) * dt) ∧
    (step mass G softening dt s).acc
        = calc_acc (step mass G softening dt s).pos mass G softening ∧
    (step mass G softening dt s).vel
        = (fun i k => (s.vel i k + s.acc i k * (dt / 2))
            + (step mass G softening dt s).acc i k * (dt / 2)) ∧
    (step mass G softening dt s).t = s.t + dt ∧
    stepIter mass G softening dt s0 (m + 1)
        = step mass G softening dt (stepIter mass G softening dt s0 m) ∧
    pos_save mass G softening dt s0 (m + 1)
        = pos_save mass G softening dt s0 m
            ++ [(step mass G softening dt (stepIter mass G softening dt s0 m)).pos] := by
  refine ⟨rfl, rfl, rfl, rfl, rfl, ?_⟩
  unfold pos_save
  rw [List.range_succ, List.map_append]
  rfl

/-- Claim C3: the run over `Nt = ⌈tEnd/dt⌉` steps yields `Nt + 1` position
snapshots, the first of which is exactly the initial positions, together with
`Nt + 1` sample times whose `i`-th entry is `i·dt`. -/
theorem run_produces_history {n : ℕ} (pos0 vel0 : Fin n → Fin 3 → ℝ)
    (mass : Fin n → ℝ) (G softening dt tEnd : ℝ) (hdt : 0 < dt) (htEnd : 0 < tEnd) :
    0 ≤ Nt tEnd dt ∧
    (run mass G softening dt (initState pos0 vel0 mass G softening)
        (Nt tEnd dt).toNat).1.length = (Nt tEnd dt).toNat + 1 ∧
    (run mass G softening dt (initState pos0 vel0 mass G softening)
        (Nt tEnd dt).toNat).1[0]? = some pos0 ∧
    (run mass G softening dt (initState pos0 vel0 mass G softening)
        (Nt tEnd dt).toNat).2.length = (Nt tEnd dt).toNat + 1 ∧
    ∀ i : ℕ, i < (Nt tEnd dt).toNat + 1 →
      (run mass G softening dt (initState pos0 vel0 mass G softening)
          (Nt tEnd dt).toNat).2[i]? = some ((i : ℝ) * dt) := by
  refine ⟨Int.ceil_nonneg (le_of_lt (div_pos htEnd hdt)), ?_, ?_, ?_, ?_⟩
  · simp [run, pos_save]
  · simp [run, pos_save, stepIter, initState]
  · simp only [run, t_all, List.length_map, List.length_range]
  · intro i hi
    simp only [run, t_all]
    rw [List.getElem?_map, List.getElem?_range hi]
    rfl

/-- Witness for C3 at the concrete input `n = 1`, `tEnd = 2`, `dt = 1`,
zero initial data. -/
theorem run_produces_history_witness :
    (0 : ℝ) < 1 ∧ (0 : ℝ) < 2 ∧
    (0 ≤ Nt 2 1 ∧
    (run (fun _ : Fin 1 => (1 : ℝ)) 1 0 1
        (initState (fun _ _ => 0) (fun _ _ => 0) (fun _ => 1) 1 0)
        (Nt 2 1).toNat).1.length = (Nt 2 1).toNat + 1 ∧
    (run (fun _ : Fin 1 => (1 : ℝ)) 1 0 1
        (initState (fun _ _ => 0) (fun _ _ => 0) (fun _ => 1) 1 0)
        (Nt 2 1).toNat).1[0]? = some (fun _ _ => 0) ∧
    (run (fun _ : Fin 1 => (1 : ℝ)) 1 0 1
        (initState (fun _ _ => 0) (fun _ _ => 0) (fun _ => 1) 1 0)
        (Nt 2 1).toNat).2.length = (Nt 2 1).toNat + 1 ∧
    ∀ i : ℕ, i < (Nt 2 1).toNat + 1 →
      (run (fun _ : Fin 1 => (1 : ℝ)) 1 0 1
          (initState (fun _ _ => 0) (fun _ _ => 0) (fun _ => 1) 1 0)
          (Nt 2 1).toNat).2[i]? = some ((i : ℝ) * 1)) :=
  ⟨by norm_num, by norm_num,
    run_produces_history (fun _ _ => 0) (fun _ _ => 0) (fun _ => 1) 1 0 1 2
      (by norm_num) (by norm_num)⟩

lemma sum_sum_antisymm {n : ℕ} (f : Fin n → Fin n → ℝ) (h : ∀ i j, f j i = -f i j) :
    ∑ i, ∑ j, f i j = 0 := by
  have key : ∑ i, ∑ j, f i j = -∑ i, ∑ j, f i j := by
    calc ∑ i, ∑ j, f i j = ∑ j, ∑ i, f i j := Finset.sum_comm
      _ = ∑ j, ∑ i, -f j i := by
          refine Finset.sum_congr rfl fun j _ => Finset.sum_congr rfl fun i _ => ?_
          rw [h j i]
      _ = -∑ i, ∑ j, f i j := by
          simp
  linarith

lemma sqDist_symm {n : ℕ} (pos : Fin n → Fin 3 → ℝ) (softening : ℝ) (i j : Fin n) :
    sqDist pos softening j i = sqDist pos softening i j := by
  unfold sqDist sep
  ring

lemma inv_r3_symm {n : ℕ} (pos : Fin n → Fin 3 → ℝ) (softening : ℝ) (i j : Fin n) :
    inv_r3 pos softening j i = inv_r3 pos softening i j := by
  unfold inv_r3
  rw [sqDist_symm]

/-- Claim C4: for any positions and masses (all masses positive, any `ε ≥ 0`,
any `G`), the accelerations satisfy `Σ_i mass_i · a_i = 0` componentwise,
because the pairwise interactions are equal and opposite. -/
theorem momentum_conserved {n : ℕ} (pos : Fin n → Fin 3 → ℝ) (mass : Fin n → ℝ)
    (G softening : ℝ) (_hm : ∀ i, 0 < mass i) (_hs : 0 ≤ softening) (k : Fin 3) :
    ∑ i, mass i * calc_acc pos mass G softening i k = 0 := by
  have expand : ∀ i : Fin n, mass i * calc_acc pos mass G softening i k
      = ∑ j, mass i * (G * (sep pos i j k * inv_r3 pos softening i j * mass j)) := by
    intro i
    unfold calc_acc
    rw [Finset.mul_sum, Finset.mul_sum]
  calc ∑ i, mass i * calc_acc pos mass G softening i k
      = ∑ i, ∑ j, mass i * (G * (sep pos i j k * inv_r3 pos softening i j * mass j)) :=
        Finset.sum_congr rfl fun i _ => expand i
    _ = 0 := by
        refine sum_sum_antisymm _ fun i j => ?_
        rw [inv_r3_symm]
        unfold sep
        ring

/-- Witness for C4 at the concrete input `n = 2`, unit masses, all bodies at
the origin, `G = 1`, `ε = 0`, component `0`. -/
theorem momentum_conserved_witness :
    (∀ i : Fin 2, (0 : ℝ) < (fun _ : Fin 2 => (1 : ℝ)) i) ∧ (0 : ℝ) ≤ 0 ∧
    ∑ i, (fun _ : Fin 2 => (1 : ℝ)) i
        * calc_acc (fun _ _ => (0 : ℝ)) (fun _ => (1 : ℝ)) 1 0 i 0 = 0 :=
  ⟨fun _ => one_pos, le_refl 0,
    momentum_conserved (fun _ _ => 0) (fun _ => 1) 1 0 (fun _ => one_pos) (le_refl 0) 0⟩

lemma four_rpow_neg_three_half : (4 : ℝ) ^ ((-3 : ℝ) / 2) = 1 / 8 := by
  have h2 : (4 : ℝ) = (2 : ℝ) ^ (2 : ℝ) := by
    rw [show (2 : ℝ) ^ (2 : ℝ) = (2 : ℝ) ^ ((2 : ℕ) : ℝ) by norm_num, Real.rpow_natCast]
    norm_num
  rw [h2, ← Real.rpow_mul (by norm_num : (0 : ℝ) ≤ 2)]
  rw [show (2 : ℝ) * ((-3 : ℝ) / 2) = ((-3 : ℤ) : ℝ) by norm_num, Real.rpow_intCast]
  norm_num

/-- The two-body configuration of the spec's single-step sanity check:
body `0` at `(−1, 0, 0)` and body `1` at `(1, 0, 0)`. -/
noncomputable def twoBodyPos : Fin 2 → Fin 3 → ℝ :=
  fun i k => if k = 0 then (if i = 0 then -1 else 1) else 0

lemma twoBody_sqDist_01 : sqDist twoBodyPos 0 0 1 = 4 := by
  norm_num [sqDist, sep, twoBodyPos,
    show (1 : Fin 3) ≠ 0 by decide, show (2 : Fin 3) ≠ 0 by decide]

lemma twoBody_sqDist_10 : sqDist twoBodyPos 0 1 0 = 4 := by
  norm_num [sqDist, sep, twoBodyPos,
    show (1 : Fin 3) ≠ 0 by decide, show (2 : Fin 3) ≠ 0 by decide]

lemma twoBody_inv_r3_01 : inv_r3 twoBodyPos 0 0 1 = 1 / 8 := by
  unfold inv_r3
  rw [twoBody_sqDist_01, if_pos (by norm_num : (0 : ℝ) < 4), four_rpow_neg_three_half]

lemma twoBody_inv_r3_10 : inv_r3 twoBodyPos 0 1 0 = 1 / 8 := by
  unfold inv_r3
  rw [twoBody_sqDist_10, if_pos (by norm_num : (0 : ℝ) < 4), four_rpow_neg_three_half]

/-- Claim C5: for two bodies of equal mass `m` at `(−1,0,0)` and `(1,0,0)` with
`ε = 0` and `G = 1`, `calc_acc` returns `a_0 = (m/4, 0, 0)` and
`a_1 = (−m/4, 0, 0)`. -/
theorem two_body_sanity (m : ℝ) :
    calc_acc twoBodyPos (fun _ => m) 1 0 0 0 = m / 4 ∧
    calc_acc twoBodyPos (fun _ => m) 1 0 0 1 = 0 ∧
    calc_acc twoBodyPos (fun _ => m) 1 0 0 2 = 0 ∧
    calc_acc twoBodyPos (fun _ => m) 1 0 1 0 = -(m / 4) ∧
    calc_acc twoBodyPos (fun _ => m) 1 0 1 1 = 0 ∧
    calc_acc twoBodyPos (fun _ => m) 1 0 1 2 = 0 := by
  refine ⟨?_, ?_, ?_, ?_, ?_, ?_⟩ <;>
    · unfold calc_acc
      rw [Fin.sum_univ_two]
      norm_num [sep, twoBodyPos, twoBody_inv_r3_01, twoBody_inv_r3_10,
        show (1 : Fin 3) ≠ 0 by decide, show (2 : Fin 3) ≠ 0 by decide]
      try ring

/-- Claim C6: when two bodies coincide exactly and `ε = 0`, the squared
separation is `0`, the mask `inv_r3 > 0` does not select the entry (so the
negative power is never applied to zero), the inverse-cube factor is `0`, and
the pair's contribution to the acceleration is `0` in every component. -/
theorem degenerate_pair_guard {n : ℕ} (pos : Fin n → Fin 3 → ℝ) (mass : Fin n → ℝ)
    (i j : Fin n) (h : ∀ k, pos i k = pos j k) :
    sqDist pos 0 i j = 0 ∧ ¬ 0 < sqDist pos 0 i j ∧ inv_r3 pos 0 i j = 0 ∧
    ∀ k, sep pos i j k * inv_r3 pos 0 i j * mass j = 0 := by
  have hs : sqDist pos 0 i j = 0 := by
    unfold sqDist sep
    rw [h 0, h 1, h 2]
    ring
  refine ⟨hs, by rw [hs]; exact lt_irrefl 0, ?_, ?_⟩
  · unfold inv_r3
    rw [hs]
    simp
  · intro k
    unfold inv_r3
    rw [hs]
    simp

/-- Witness for C6 at the concrete input `n = 2`, both bodies at the origin,
unit masses. -/
theorem degenerate_pair_guard_witness :
    (∀ k : Fin 3, (fun (_ : Fin 2) (_ : Fin 3) => (0 : ℝ)) 0 k
        = (fun (_ : Fin 2) (_ : Fin 3) => (0 : ℝ)) 1 k) ∧
    (sqDist (fun (_ : Fin 2) (_ : Fin 3) => (0 : ℝ)) 0 0 1 = 0 ∧
    ¬ 0 < sqDist (fun (_ : Fin 2) (_ : Fin 3) => (0 : ℝ)) 0 0 1 ∧
    inv_r3 (fun (_ : Fin 2) (_ : Fin 3) => (0 : ℝ)) 0 0 1 = 0 ∧
    ∀ k, sep (fun (_ : Fin 2) (_ : Fin 3) => (0 : ℝ)) 0 1 k
        * inv_r3 (fun (_ : Fin 2) (_ : Fin 3) => (0 : ℝ)) 0 0 1
        * (fun _ : Fin 2 => (1 : ℝ)) 1 = 0) :=
  ⟨fun _ => rfl,
    degenerate_pair_guard (fun _ _ => 0) (fun _ => 1) 0 1 (fun _ => rfl)⟩

/-- A row-list interface to the force kernel, making the leading dimensions of
`positions` (a list of rows) and `masses` explicit. The matrix product
`(dx * inv_r3) @ mass` on lines 31-33 requires the inner dimensions `N` and
`len(mass)` to agree and NumPy raises a `ValueError` otherwise; the failure is
modelled as `none`, so no broadcast or truncated result is ever produced. -/
noncomputable def calc_acc_checked (pos : List (Fin 3 → ℝ)) (mass : List ℝ)
    (G softening : ℝ) : Option (List (Fin 3 → ℝ)) :=
  if h : mass.length = pos.length then
    some ((List.finRange pos.length).map fun i =>
      calc_acc (fun t => pos.get t) (fun t => mass.get (Fin.cast h.symm t)) G softening i)
  else none

/-- Claim C7: a call with mismatched leading dimensions between positions and
masses produces no result at all — it is rejected (NumPy raises on the matrix
product), never silently broadcast or truncated. -/
theorem shape_mismatch_rejected (pos : List (Fin 3 → ℝ)) (mass : List ℝ)
    (G softening : ℝ) (h : mass.length ≠ pos.length) :
    calc_acc_checked pos mass G softening = none := by
  unfold calc_acc_checked
  rw [dif_neg h]

/-- Witness for C7 at the concrete input of one body row and an empty mass
vector. -/
theorem shape_mismatch_rejected_witness :
    ([] : List ℝ).length ≠ ([fun _ => 0] : List (Fin 3 → ℝ)).length ∧
    calc_acc_checked [fun _ => 0] ([] : List ℝ) 1 0 = none :=
  ⟨by decide, shape_mismatch_rejected [fun _ => 0] [] 1 0 (by decide)⟩

/-- Claim C10: `calc_acc` is translation-invariant — shifting every body by a
constant 3-vector `c` leaves the accelerations unchanged, since positions only
enter through the pairwise differences. -/
theorem calc_acc_translation_invariant {n : ℕ} (pos : Fin n → Fin 3 → ℝ)
    (c : Fin 3 → ℝ) (mass : Fin n → ℝ) (G softening : ℝ) :
    calc_acc (fun i k => pos i k + c k) mass G softening
      = calc_acc pos mass G softening := by
  have hsep : ∀ i j k, sep (fun p q => pos p q + c q) i j k = sep pos i j k := by
    intro i j k
    unfold sep
    ring
  have hsq : ∀ i j, sqDist (fun p q => pos p q + c q) softening i j
      = sqDist pos softening i j := by
    intro i j
    unfold sqDist
    rw [hsep, hsep, hsep]
  have hinv : ∀ i j, inv_r3 (fun p q => pos p q + c q) softening i j
      = inv_r3 pos softening i j := by
    intro i j
    unfold inv_r3
    rw [hsq]
  funext i k
  unfold calc_acc
  congr 1
  exact Finset.sum_congr rfl fun j _ => by rw [hsep, hinv]

/-- The `plotRealTime` switch, set to `True` on line 50 of the source. -/
def plotRealTime : Bool := true

/-- Whether iteration `i` of a `steps`-iteration main loop executes the
plotting block (lines 101-113): it runs when `plotRealTime or (i == Nt-1)`. -/
def savesFrame (steps i : ℕ) : Bool := plotRealTime || (i == steps - 1)

/-- The indices of the loop iterations that render a frame and write the image
file `images/<i>.png` via `plt.savefig` (line 113). -/
def renderWrites (steps : ℕ) : List ℕ :=
  (List.range steps).filter (savesFrame steps)

/-- Claim C8, counterexample: already a one-iteration run renders and writes
an image file during the stepping loop (iteration `0` saves `images/0.png`),
so the loop is not free of I/O and rendering. -/
theorem loop_renders_counterexample : renderWrites 1 ≠ [] := by decide

/-- Claim C8, amended: the stepping loop's numerical state update produces
only the history and times, but each iteration whose index satisfies
`plotRealTime or i = Nt − 1` additionally renders and saves one image file —
and since `plotRealTime` is `True`, that is every iteration. -/
theorem loop_renders_every_iteration (steps : ℕ) :
    renderWrites steps = List.range steps := by
  have hall : ∀ i, savesFrame steps i = true := by
    intro i
    rfl
  unfold renderWrites
  rw [List.filter_eq_self.mpr fun a _ => hall a]

/-- The NumPy arrays touched by `calc_acc`, named as in the source. -/
inductive NpArr
  | pos
  | mass
  | x
  | y
  | z
  | dx
  | dy
  | dz
  | invR3
  | ax
  | ay
  | az
  | a
deriving DecidableEq

/-- Storage-level effect of one line of `calc_acc`: `view src dst` binds `dst`
to a slice sharing `src`'s storage, `alloc dst` binds `dst` to freshly
allocated storage, and `writeInPlace dst` mutates `dst`'s storage. -/
inductive NpOp
  | view (src dst : NpArr)
  | alloc (dst : NpArr)
  | writeInPlace (dst : NpArr)
deriving DecidableEq

/-- The storage effects of `calc_acc`, line by line: `x`, `y`, `z` are slices
(views) of `pos` (lines 18-20); `dx`, `dy`, `dz` are freshly allocated by the
broadcast subtraction (lines 23-25); `inv_r3` is freshly allocated by the
elementwise sum (line 28) and then updated in place by the masked assignment
(line 29); `ax`, `ay`, `az` are freshly allocated by the matrix products
(lines 31-33); `a` is freshly allocated by `hstack` (line 36). -/
def calcAccOps : List NpOp :=
  [ .view .pos .x, .view .pos .y, .view .pos .z,
    .alloc .dx, .alloc .dy, .alloc .dz,
    .alloc .invR3,
    .writeInPlace .invR3,
    .alloc .ax, .alloc .ay, .alloc .az,
    .alloc .a ]

/-- The arrays passed in by the caller of `calc_acc`. -/
def inputArrays : List NpArr := [.pos, .mass]

/-- The arrays mutated in place during the call. -/
def inPlaceTargets (ops : List NpOp) : List NpArr :=
  ops.filterMap fun op => match op with
    | .writeInPlace b => some b
    | _ => none

/-- The arrays that alias caller storage: the inputs themselves and every view
taken of an input. -/
def inputAliases (ops : List NpOp) : List NpArr :=
  inputArrays ++ ops.filterMap fun op => match op with
    | .view s d => if inputArrays.contains s then some d else none
    | _ => none

/-- Checks, scanning the operations in order, that every in-place write hits
storage freshly allocated earlier in the same call. -/
def inPlaceWritesFreshOnly : List NpOp → List NpArr → Bool
  | [], _ => true
  | .alloc b :: rest, fresh => inPlaceWritesFreshOnly rest (b :: fresh)
  | .view _ _ :: rest, fresh => inPlaceWritesFreshOnly rest fresh
  | .writeInPlace b :: rest, fresh => fresh.contains b && inPlaceWritesFreshOnly rest fresh

/-- Claim C9: `calc_acc` mutates none of its inputs — the only array written
in place is `inv_r3`, which is freshly allocated inside the call before the
write and aliases neither `pos`, `mass`, nor any view of them. -/
theorem calc_acc_no_input_mutation :
    inPlaceWritesFreshOnly calcAccOps [] = true ∧
    (inPlaceTargets calcAccOps).all
      (fun b => !((inputAliases calcAccOps).contains b)) = true ∧
    inPlaceTargets calcAccOps = [.invR3] := by
  decide

end NBody
